import Mathlib

set_option autoImplicit false

/-!
Shallow embedding of the score-following backend (src/backend/app):
position_manager.py (the Position Store), the publisher loop and worker
launch in main.py (websocket_endpoint), and the alignment worker
run_score_following.  Python dicts over string keys are modelled as
insertion-ordered association lists; positions (Python floats) are
modelled as rationals.
-/

namespace ScoreFollowingApp

/-- Score positions are real-valued (Python floats); modelled as rationals. -/
abbrev Pos := ℚ

/-- A Python dict with string keys and position values, as an
insertion-ordered association list. -/
abbrev Dict := List (String × Pos)

/-- Python dict lookup, returning the value bound to the key if present. -/
def dictFind : Dict → String → Option Pos
  | [], _ => none
  | (k, v) :: rest, key => if k = key then some v else dictFind rest key

/-- Python dict assignment d[key] = val: overwrite the existing binding in
place, or append a fresh entry at the end. -/
def dictSet : Dict → String → Pos → Dict
  | [], key, val => [(key, val)]
  | (k, v) :: rest, key, val =>
      if k = key then (key, val) :: rest else (k, v) :: dictSet rest key val

/-- Python del d[key]: drop the binding for the key (dicts bind each key at
most once, so dropping every occurrence agrees with deleting the one entry). -/
def dictRemove : Dict → String → Dict
  | [], _ => []
  | (k, v) :: rest, key =>
      if k = key then dictRemove rest key else (k, v) :: dictRemove rest key

/-- Python membership test key in d. -/
def dictHasKey : Dict → String → Bool
  | [], _ => false
  | (k, _) :: rest, key => if k = key then true else dictHasKey rest key

/-- PositionManager from src/backend/app/position_manager.py: a class whose
only attribute is the positions dict mapping file_id to position. -/
structure PositionManager where
  positions : Dict
deriving DecidableEq

/-- PositionManager.__init__: self.positions = the empty dict. -/
def PositionManager.init : PositionManager := ⟨[]⟩

/-- PositionManager.set_position: self.positions[file_id] = position. -/
def set_position (m : PositionManager) (file_id : String) (position : Pos) :
    PositionManager :=
  ⟨dictSet m.positions file_id position⟩

/-- PositionManager.get_position: return self.positions.get(file_id, 0). -/
def get_position (m : PositionManager) (file_id : String) : Pos :=
  (dictFind m.positions file_id).getD 0

/-- PositionManager.remove_position: if file_id in self.positions, delete it. -/
def remove_position (m : PositionManager) (file_id : String) : PositionManager :=
  if dictHasKey m.positions file_id then ⟨dictRemove m.positions file_id⟩ else m

/-- PositionManager.get_all_positions: return self.positions (the value it
holds; the aliasing behaviour of returning the object itself is modelled
separately below with an explicit heap). -/
def get_all_positions (m : PositionManager) : Dict := m.positions

/-- PositionManager.reset: self.positions = a fresh empty dict. -/
def reset (_ : PositionManager) : PositionManager := ⟨[]⟩

theorem dictFind_dictSet_same (d : Dict) (key : String) (val : Pos) :
    dictFind (dictSet d key val) key = some val := by
  induction d with
  | nil => simp [dictSet, dictFind]
  | cons p rest ih =>
      obtain ⟨k, v⟩ := p
      by_cases h : k = key
      · simp [dictSet, dictFind, h]
      · simp [dictSet, dictFind, h, ih]

theorem dictFind_dictSet_other (d : Dict) (a b : String) (val : Pos)
    (hab : a ≠ b) : dictFind (dictSet d a val) b = dictFind d b := by
  induction d with
  | nil => simp [dictSet, dictFind, hab]
  | cons p rest ih =>
      obtain ⟨k, v⟩ := p
      by_cases h : k = a
      · subst h
        simp [dictSet, dictFind, hab]
      · simp [dictSet, dictFind, h, ih]

theorem dictFind_eq_none_of_not_hasKey (d : Dict) (key : String)
    (h : dictHasKey d key = false) : dictFind d key = none := by
  induction d with
  | nil => simp [dictFind]
  | cons p rest ih =>
      obtain ⟨k, v⟩ := p
      by_cases hk : k = key
      · simp [dictHasKey, hk] at h
      · simp [dictHasKey, hk] at h
        simp [dictFind, hk, ih h]

theorem dictHasKey_dictRemove (d : Dict) (key : String) :
    dictHasKey (dictRemove d key) key = false := by
  induction d with
  | nil => simp [dictRemove, dictHasKey]
  | cons p rest ih =>
      obtain ⟨k, v⟩ := p
      by_cases hk : k = key
      · simp [dictRemove, hk, ih]
      · simp [dictRemove, dictHasKey, hk, ih]

theorem dictRemove_of_not_hasKey (d : Dict) (key : String)
    (h : dictHasKey d key = false) : dictRemove d key = d := by
  induction d with
  | nil => simp [dictRemove]
  | cons p rest ih =>
      obtain ⟨k, v⟩ := p
      by_cases hk : k = key
      · simp [dictHasKey, hk] at h
      · simp [dictHasKey, hk] at h
        simp [dictRemove, hk, ih h]

/-- C5: for every session identifier, get returns the value of the most
recent set for that identifier — set(s, p) immediately followed by get(s)
returns p — and for an identifier with no prior set (or after remove), get
returns the absent-sentinel 0 rather than raising; get is a total function
(it never raises for any key). -/
theorem store_get_last_set_or_default (m : PositionManager) (s : String)
    (p : Pos) :
    get_position (set_position m s p) s = p ∧
    (dictHasKey m.positions s = false → get_position m s = 0) ∧
    get_position (remove_position m s) s = 0 := by
  refine ⟨?_, ?_, ?_⟩
  · simp [get_position, set_position, dictFind_dictSet_same]
  · intro h
    simp [get_position, dictFind_eq_none_of_not_hasKey m.positions s h]
  · by_cases h : dictHasKey m.positions s
    · simp [get_position, remove_position, h,
        dictFind_eq_none_of_not_hasKey _ s (dictHasKey_dictRemove m.positions s)]
    · simp only [Bool.not_eq_true] at h
      simp [get_position, remove_position, h,
        dictFind_eq_none_of_not_hasKey m.positions s h]

theorem store_get_last_set_or_default_witness :
    dictHasKey (PositionManager.init).positions "s" = false ∧
    get_position PositionManager.init "s" = 0 :=
  ⟨by decide, (store_get_last_set_or_default PositionManager.init "s" 2).2.1 (by decide)⟩

/-- Fold a list of (session, position) writes through set_position, each
writer writing to its own key in sequence. -/
def applyWrites (m : PositionManager) (ws : List (String × Pos)) :
    PositionManager :=
  List.foldl (fun acc w => set_position acc w.1 w.2) m ws

/-- Specification observable: the last value written to key k in a write
sequence, if any. -/
def lastWriteTo : List (String × Pos) → String → Option Pos
  | [], _ => none
  | w :: ws, k =>
      match lastWriteTo ws k with
      | some p => some p
      | none => if w.1 = k then some w.2 else none

/-- C7: set(a, p) leaves every other session entry unchanged — for a ≠ b,
get(b) returns the same value before and after set(a, p) — and a sequence of
writes yields a final state equal to the last write per key, with no
cross-contamination between sessions. -/
theorem set_frame_and_last_write :
    (∀ (m : PositionManager) (a b : String) (p : Pos), a ≠ b →
        get_position (set_position m a p) b = get_position m b) ∧
    (∀ (m : PositionManager) (ws : List (String × Pos)) (k : String),
        get_position (applyWrites m ws) k =
          (lastWriteTo ws k).getD (get_position m k)) := by
  have hframe : ∀ (m : PositionManager) (a b : String) (p : Pos), a ≠ b →
      get_position (set_position m a p) b = get_position m b := by
    intro m a b p hab
    simp [get_position, set_position, dictFind_dictSet_other m.positions a b p hab]
  refine ⟨hframe, ?_⟩
  intro m ws k
  induction ws generalizing m with
  | nil => simp [applyWrites, lastWriteTo]
  | cons w ws ih =>
      have hstep : applyWrites m (w :: ws) = applyWrites (set_position m w.1 w.2) ws := by
        simp [applyWrites]
      rw [hstep, ih]
      cases hl : lastWriteTo ws k with
      | some p => simp [lastWriteTo, hl]
      | none =>
          by_cases hk : w.1 = k
          · subst hk
            simp [lastWriteTo, hl, get_position, set_position, dictFind_dictSet_same]
          · simp [lastWriteTo, hl, hk, hframe m w.1 k w.2 hk]

theorem set_frame_and_last_write_witness :
    ("a" : String) ≠ "b" ∧
    get_position (set_position ⟨[("b", 2)]⟩ "a" 1) "b" =
      get_position (⟨[("b", 2)]⟩ : PositionManager) "b" :=
  ⟨by decide, set_frame_and_last_write.1 ⟨[("b", 2)]⟩ "a" "b" 1 (by decide)⟩

/-- C8: the absent-sentinel is observationally identical to a legitimate
zero position — get(s) on a store where s was never written returns exactly
the same value (0) as get(s) on a store whose last write for s was
set(s, 0), so no caller of get can distinguish them. -/
theorem absent_indistinguishable_from_zero (m mAlt : PositionManager)
    (s : String) (h : dictHasKey m.positions s = false) :
    get_position m s = get_position (set_position mAlt s 0) s ∧
    get_position m s = 0 := by
  have h0 : get_position m s = 0 := by
    simp [get_position, dictFind_eq_none_of_not_hasKey m.positions s h]
  have h1 : get_position (set_position mAlt s 0) s = 0 := by
    simp [get_position, set_position, dictFind_dictSet_same]
  exact ⟨h0.trans h1.symm, h0⟩

theorem absent_indistinguishable_from_zero_witness :
    dictHasKey (PositionManager.init).positions "x" = false ∧
    get_position PositionManager.init "x" =
      get_position (set_position ⟨[("y", 3)]⟩ "x" 0) "x" :=
  ⟨by decide,
    (absent_indistinguishable_from_zero PositionManager.init ⟨[("y", 3)]⟩ "x" (by decide)).1⟩

/-- C9: remove_position deletes the entry when present and is a no-op when
the entry is absent (no exception, store unchanged); consequently remove is
idempotent — a second remove(s) leaves the store exactly as a single
remove(s) did. -/
theorem remove_noop_idempotent (m : PositionManager) (s : String) :
    (dictHasKey m.positions s = false → remove_position m s = m) ∧
    dictHasKey (remove_position m s).positions s = false ∧
    remove_position (remove_position m s) s = remove_position m s := by
  have hnoop : ∀ (n : PositionManager), dictHasKey n.positions s = false →
      remove_position n s = n := by
    intro n hn
    simp [remove_position, hn]
  have habsent : dictHasKey (remove_position m s).positions s = false := by
    by_cases h : dictHasKey m.positions s
    · simp [remove_position, h, dictHasKey_dictRemove]
    · simp only [Bool.not_eq_true] at h
      simp [remove_position, h]
  exact ⟨hnoop m, habsent, hnoop (remove_position m s) habsent⟩

theorem remove_noop_idempotent_witness :
    dictHasKey (⟨[("b", 2)]⟩ : PositionManager).positions "a" = false ∧
    remove_position ⟨[("b", 2)]⟩ "a" = ⟨[("b", 2)]⟩ :=
  ⟨by decide, (remove_noop_idempotent ⟨[("b", 2)]⟩ "a").1 (by decide)⟩

/-- Outcome of one await websocket.send_json call: it either returns or
raises an exception. -/
inductive SendRes
  | ok
  | fail
deriving DecidableEq

/-- What the publisher loop observes on one iteration: the connection state
read by the while guard, then the outcome of the send. -/
structure Tick where
  connected : Bool
  send : SendRes
deriving DecidableEq

/-- How the publisher loop in websocket_endpoint ended on a finite trace of
iterations. -/
inductive PubExit
  | running
  | closedExit
  | errorExit
deriving DecidableEq

/-- The publisher loop of websocket_endpoint (src/backend/app/main.py lines
132-145): while the client state reads CONNECTED, get the current position
and send it; if a send raises, the except branch calls
position_manager.reset() and returns; if the guard reads not-connected, the
loop simply ends with no cleanup.  Returns the final manager state, the
values sent, and how the loop ended (running means the trace was exhausted
while the loop was still going). -/
def publisherLoop (file_id : String) :
    List Tick → PositionManager → List Pos → PositionManager × List Pos × PubExit
  | [], m, sent => (m, sent.reverse, PubExit.running)
  | t :: ts, m, sent =>
      if t.connected then
        match t.send with
        | SendRes.ok => publisherLoop file_id ts m (get_position m file_id :: sent)
        | SendRes.fail => (reset m, sent.reverse, PubExit.errorExit)
      else (m, sent.reverse, PubExit.closedExit)

/-- C1 counterexample: with sessions a ↦ 1 and b ↦ 2 in the store, a send
failure on session a's publisher tears down via reset(), after which
session b's stored position reads 0 instead of its prior value 2 — the
cleanup is not scoped to the failing session. -/
theorem publisher_cleanup_clears_other_sessions :
    get_position (⟨[("a", 1), ("b", 2)]⟩ : PositionManager) "b" = 2 ∧
    (publisherLoop "a" [⟨true, SendRes.fail⟩] ⟨[("a", 1), ("b", 2)]⟩ []).2.2 =
      PubExit.errorExit ∧
    get_position (publisherLoop "a" [⟨true, SendRes.fail⟩] ⟨[("a", 1), ("b", 2)]⟩ []).1
      "b" = 0 := by
  refine ⟨by decide, rfl, by decide⟩

/-- C1 amended: when the publisher loop ends because a send raised, cleanup
is position_manager.reset(), which empties the entire store — every
session's entry is removed, not only the failing session's; when the loop
ends because the connection-state guard observes the connection closed, no
cleanup runs at all and the store is exactly as it was; and while still
running the publisher never writes the store. -/
theorem publisher_teardown_reset_or_nothing (file_id : String)
    (ticks : List Tick) (m : PositionManager) (sent : List Pos) :
    ((publisherLoop file_id ticks m sent).2.2 = PubExit.errorExit →
        (publisherLoop file_id ticks m sent).1.positions = []) ∧
    ((publisherLoop file_id ticks m sent).2.2 = PubExit.closedExit →
        (publisherLoop file_id ticks m sent).1 = m) ∧
    ((publisherLoop file_id ticks m sent).2.2 = PubExit.running →
        (publisherLoop file_id ticks m sent).1 = m) := by
  induction ticks generalizing m sent with
  | nil => simp [publisherLoop]
  | cons t ts ih =>
      by_cases hc : t.connected
      · cases hs : t.send with
        | ok => simpa [publisherLoop, hc, hs] using ih m (get_position m file_id :: sent)
        | fail => simp [publisherLoop, hc, hs, reset]
      · simp only [Bool.not_eq_true] at hc
        simp [publisherLoop, hc]

theorem publisher_teardown_reset_or_nothing_witness :
    (publisherLoop "w" [⟨true, SendRes.fail⟩] ⟨[("w", 3)]⟩ []).2.2 =
      PubExit.errorExit ∧
    (publisherLoop "w" [⟨true, SendRes.fail⟩] ⟨[("w", 3)]⟩ []).1.positions = [] :=
  ⟨rfl, (publisher_teardown_reset_or_nothing "w" [⟨true, SendRes.fail⟩] ⟨[("w", 3)]⟩ []).1 rfl⟩

/-- The websocket endpoint's reaction to one streaming connection
(src/backend/app/main.py lines 128-130): it submits run_score_following for
the received file_id to the executor unconditionally — there is no check
whether a worker for that session already runs. -/
def handleConnection (launched : List String) (file_id : String) : List String :=
  launched ++ [file_id]

/-- The worker launches accumulated over a sequence of streaming
connections, each identified by the file_id it sends. -/
def processConnections (conns : List String) : List String :=
  List.foldl handleConnection [] conns

/-- C2 counterexample: two streaming connections sending the same file_id
lead to two worker launches for that session — the count is 2, not at
most 1. -/
theorem duplicate_connection_launches_second_worker :
    (processConnections ["f1", "f1"]).count "f1" = 2 ∧
    ¬ (processConnections ["f1", "f1"]).count "f1" ≤ 1 := by
  refine ⟨rfl, by decide⟩

/-- C2 amended: the endpoint launches a worker unconditionally on every
streaming connection, so the number of workers launched for a session
equals the number of connections that presented its file_id; in particular
a second connection for an already-tracked session launches a second
worker (the single-slot executor queues it but does not suppress it). -/
theorem worker_launch_unconditional (conns : List String) (sid : String) :
    (processConnections conns).count sid = conns.count sid := by
  have h : processConnections conns = conns := by
    have hgen : ∀ (acc : List String), List.foldl handleConnection acc conns = acc ++ conns := by
      induction conns with
      | nil => intro acc; simp
      | cons c cs ih => intro acc; simp [handleConnection, ih]
    simpa using hgen []
  rw [h]

/-- One event of the opaque alignment producer as observed by the worker's
inner for-loop: either a frame is yielded and convert_frame_to_beat
succeeds with the given beat, or the frame's conversion raises, or the
producer (or the audio stream feeding it) raises mid-iteration. -/
inductive ProducerEvent
  | yieldOk (beat : Pos)
  | yieldConvErr
  | producerErr
deriving DecidableEq

/-- How a run of the worker function ended: the while loop finished
normally, an exception was caught by the except branch, an exception
escaped the function (only possible before the try block), or the fuel for
the while loop ran out (unreachable for positive fuel). -/
inductive WorkerOutcome
  | completed
  | caughtError
  | uncaughtError
  | fuelOut
deriving DecidableEq

/-- The inner for-loop of run_score_following (src/backend/app/main.py
lines 69-71): for each yielded frame, convert it and set the position;
returns the updated dict and whether an exception was raised inside the
loop. -/
def innerRun (file_id : String) : List ProducerEvent → Dict → Dict × Bool
  | [], d => (d, false)
  | ProducerEvent.yieldOk b :: es, d => innerRun file_id es (dictSet d file_id b)
  | ProducerEvent.yieldConvErr :: _, d => (d, true)
  | ProducerEvent.producerErr :: _, d => (d, true)

/-- The while alignment_in_progress loop inside the try block
(src/backend/app/main.py lines 66-73): each pass enters the AudioStream
context (counted as one acquisition; acquireErr models its raising),
runs the inner for-loop, and — its final statement — sets
alignment_in_progress to False, after which the guard is re-checked.  An
exception anywhere in the body ends the whole loop as caughtError (the
try wraps the loop).  Fuel bounds the number of guard re-checks. -/
def wsfWhile (file_id : String) (acquireErr : Bool)
    (events : List ProducerEvent) :
    Nat → Bool → Dict → Nat → Dict × Nat × WorkerOutcome
  | _, false, d, acqs => (d, acqs, WorkerOutcome.completed)
  | 0, true, d, acqs => (d, acqs, WorkerOutcome.fuelOut)
  | fuel + 1, true, d, acqs =>
      if acquireErr then (d, acqs + 1, WorkerOutcome.caughtError)
      else
        let r := innerRun file_id events d
        if r.2 then (r.1, acqs + 1, WorkerOutcome.caughtError)
        else wsfWhile file_id acquireErr events fuel false r.1 (acqs + 1)

/-- run_score_following from src/backend/app/main.py lines 57-77.
resolveErr models find_midi_by_file_id / get_score_features /
partitura.load_score_midi raising: those calls sit before the try block,
so such an exception leaves the function uncaught.  Everything from the
while loop on is wrapped in try/except, whose except branch logs and
returns.  The result is the final store dict, the number of AudioStream
acquisitions, and how the run ended. -/
def run_score_following (file_id : String) (resolveErr acquireErr : Bool)
    (events : List ProducerEvent) (fuel : Nat) (d : Dict) :
    Dict × Nat × WorkerOutcome :=
  if resolveErr then (d, 0, WorkerOutcome.uncaughtError)
  else wsfWhile file_id acquireErr events fuel true d 0

/-- Specification observable: the beats successfully converted and written
before the first raising event of the producer sequence. -/
def convertedPrefix : List ProducerEvent → List Pos
  | [] => []
  | ProducerEvent.yieldOk b :: es => b :: convertedPrefix es
  | ProducerEvent.yieldConvErr :: _ => []
  | ProducerEvent.producerErr :: _ => []

/-- Specification observable: whether the producer sequence raises at some
point instead of completing. -/
def raisesIn : List ProducerEvent → Bool
  | [] => false
  | ProducerEvent.yieldOk _ :: es => raisesIn es
  | ProducerEvent.yieldConvErr :: _ => true
  | ProducerEvent.producerErr :: _ => true

theorem innerRun_spec (file_id : String) (events : List ProducerEvent)
    (d : Dict) :
    innerRun file_id events d =
      (List.foldl (fun a b => dictSet a file_id b) d (convertedPrefix events),
        raisesIn events) := by
  induction events generalizing d with
  | nil => simp [innerRun, convertedPrefix, raisesIn]
  | cons e es ih =>
      cases e with
      | yieldOk b => simp [innerRun, convertedPrefix, raisesIn, ih]
      | yieldConvErr => simp [innerRun, convertedPrefix, raisesIn]
      | producerErr => simp [innerRun, convertedPrefix, raisesIn]

/-- C3 counterexample: a run in which the inner sequence completes without
raising and without any terminal signal (it yields beats 1 and 2 and then
simply ends) performs exactly one input acquisition and terminates with
outcome completed — the outer loop does not re-acquire a fresh input
resource and producer, because the loop body's last statement sets
alignment_in_progress to False. -/
theorem worker_retry_counterexample :
    run_score_following "s1" false false
        [ProducerEvent.yieldOk 1, ProducerEvent.yieldOk 2] 9 [] =
      ([("s1", 2)], 1, WorkerOutcome.completed) := by
  decide

/-- C3 amended: the worker's outer while loop terminates after a single
pass whenever the inner sequence completes without raising — its result is
the same for every positive fuel bound, and the number of input
acquisitions in any run is at most one; no re-acquire-and-retry ever
happens. -/
theorem worker_outer_loop_single_pass (file_id : String)
    (resolveErr acquireErr : Bool) (events : List ProducerEvent)
    (fuel : Nat) (d : Dict) (h : 1 ≤ fuel) :
    run_score_following file_id resolveErr acquireErr events fuel d =
      run_score_following file_id resolveErr acquireErr events 1 d ∧
    (run_score_following file_id resolveErr acquireErr events fuel d).2.1 ≤ 1 := by
  cases resolveErr with
  | true => simp [run_score_following]
  | false =>
      obtain ⟨n, rfl⟩ : ∃ n, fuel = n + 1 := ⟨fuel - 1, by omega⟩
      cases acquireErr with
      | true => simp [run_score_following, wsfWhile]
      | false =>
          by_cases hr : (innerRun file_id events d).2
          · simp [run_score_following, wsfWhile, hr]
          · simp only [Bool.not_eq_true] at hr
            simp [run_score_following, wsfWhile, hr]

theorem worker_outer_loop_single_pass_witness :
    1 ≤ 9 ∧
    run_score_following "s2" false false [ProducerEvent.yieldOk 3] 9 [] =
      run_score_following "s2" false false [ProducerEvent.yieldOk 3] 1 [] :=
  ⟨by decide,
    (worker_outer_loop_single_pass "s2" false false [ProducerEvent.yieldOk 3] 9 []
      (by decide)).1⟩

/-- The writes run_score_following performs on the store: none when the
AudioStream acquisition raises, otherwise the successfully converted
prefix of the producer's yields. -/
def workerWrites (acquireErr : Bool) (events : List ProducerEvent) : List Pos :=
  if acquireErr then [] else convertedPrefix events

/-- C4: every exception arising inside the worker during input-resource
acquisition, position conversion, or store access is caught at the worker
boundary (the run never ends with an uncaught exception — those operations
all sit inside the try block), and the final store is the initial store
with exactly the worker's successful sets applied, nothing beyond the last
successful set; in particular a producer that raises before yielding
anything leaves the session's entry absent. -/
theorem worker_exceptions_contained (file_id : String) (acquireErr : Bool)
    (events : List ProducerEvent) (fuel : Nat) (d : Dict) (h : 1 ≤ fuel) :
    ((run_score_following file_id false acquireErr events fuel d).2.2 =
        WorkerOutcome.completed ∨
      (run_score_following file_id false acquireErr events fuel d).2.2 =
        WorkerOutcome.caughtError) ∧
    (run_score_following file_id false acquireErr events fuel d).1 =
      List.foldl (fun a b => dictSet a file_id b) d
        (workerWrites acquireErr events) ∧
    (dictHasKey d file_id = false → convertedPrefix events = [] →
      dictHasKey (run_score_following file_id false acquireErr events fuel d).1
        file_id = false) := by
  obtain ⟨n, rfl⟩ : ∃ n, fuel = n + 1 := ⟨fuel - 1, by omega⟩
  have hmain :
      (run_score_following file_id false acquireErr events (n + 1) d).1 =
        List.foldl (fun a b => dictSet a file_id b) d
          (workerWrites acquireErr events) ∧
      ((run_score_following file_id false acquireErr events (n + 1) d).2.2 =
          WorkerOutcome.completed ∨
        (run_score_following file_id false acquireErr events (n + 1) d).2.2 =
          WorkerOutcome.caughtError) := by
    cases acquireErr with
    | true => simp [run_score_following, wsfWhile, workerWrites]
    | false =>
        by_cases hr : (innerRun file_id events d).2
        · refine ⟨?_, ?_⟩
          · simp [run_score_following, wsfWhile, hr, workerWrites,
              (congrArg Prod.fst (innerRun_spec file_id events d))]
          · simp [run_score_following, wsfWhile, hr]
        · simp only [Bool.not_eq_true] at hr
          refine ⟨?_, ?_⟩
          · simp [run_score_following, wsfWhile, hr, workerWrites,
              (congrArg Prod.fst (innerRun_spec file_id events d))]
          · simp [run_score_following, wsfWhile, hr]
  refine ⟨hmain.2, hmain.1, ?_⟩
  intro habs hpre
  rw [hmain.1]
  cases acquireErr with
  | true => simpa [workerWrites] using habs
  | false => simpa [workerWrites, hpre] using habs

theorem worker_exceptions_contained_witness :
    1 ≤ 1 ∧ dictHasKey [] "w" = false ∧
    convertedPrefix [ProducerEvent.producerErr] = [] ∧
    dictHasKey
      (run_score_following "w" false false [ProducerEvent.producerErr] 1 []).1
      "w" = false :=
  ⟨by decide, by decide, by decide,
    (worker_exceptions_contained "w" false [ProducerEvent.producerErr] 1 []
      (by decide)).2.2 (by decide) (by decide)⟩

/-- A heap of dict objects, addressed by index.  This refines the
value-level PositionManager model above with explicit object identity, to
express what Python returns when a method hands out the dict object
itself. -/
abbrev Heap := List Dict

/-- Dereference a heap address. -/
def readRef (h : Heap) (r : Nat) : Dict := h.getD r []

/-- Mutate the dict object stored at a heap address in place. -/
def writeRef (h : Heap) (r : Nat) (d : Dict) : Heap := h.set r d

/-- The PositionManager instance with its positions attribute modelled as a
reference into the heap. -/
structure ManagerState where
  heap : Heap
  posRef : Nat
deriving DecidableEq

/-- set_position on the reference model: mutates the dict object that
self.positions points to. -/
def setPositionRef (st : ManagerState) (file_id : String) (p : Pos) :
    ManagerState :=
  ⟨writeRef st.heap st.posRef (dictSet (readRef st.heap st.posRef) file_id p),
    st.posRef⟩

/-- remove_position on the reference model: mutates the dict object in
place when the key is present. -/
def removePositionRef (st : ManagerState) (file_id : String) : ManagerState :=
  if dictHasKey (readRef st.heap st.posRef) file_id then
    ⟨writeRef st.heap st.posRef (dictRemove (readRef st.heap st.posRef) file_id),
      st.posRef⟩
  else st

/-- get_all_positions returns self.positions — in Python that is the dict
object itself, i.e. its reference, not a copy of its contents. -/
def getAllPositionsRef (st : ManagerState) : Nat := st.posRef

/-- reset rebinds self.positions to a freshly allocated empty dict; the old
dict object stays on the heap untouched. -/
def resetRef (st : ManagerState) : ManagerState :=
  ⟨st.heap ++ [[]], st.heap.length⟩

theorem readRef_writeRef_same (h : Heap) (r : Nat) (d : Dict)
    (hr : r < h.length) : readRef (writeRef h r d) r = d := by
  induction h generalizing r with
  | nil => simp at hr
  | cons x xs ih =>
      cases r with
      | zero => simp [readRef, writeRef]
      | succ n =>
          simp only [List.length_cons, Nat.succ_lt_succ_iff] at hr
          simpa [readRef, writeRef] using ih n hr

theorem readRef_append_of_lt (h : Heap) (x : Dict) (r : Nat)
    (hr : r < h.length) : readRef (h ++ [x]) r = readRef h r := by
  induction h generalizing r with
  | nil => simp at hr
  | cons y ys ih =>
      cases r with
      | zero => simp [readRef]
      | succ n =>
          simp only [List.length_cons, Nat.succ_lt_succ_iff] at hr
          simpa [readRef] using ih n hr

/-- C6 counterexample: take the snapshot returned by get_all_positions on a
store holding b ↦ 2, then perform set_position(a, 1); the mapping the
snapshot refers to now contains a ↦ 1 — the mutation performed after the
snapshot was taken changed the mapping that snapshot() already returned, so
it is not a point-in-time copy. -/
theorem snapshot_alias_counterexample :
    readRef (setPositionRef ⟨[[("b", 2)]], 0⟩ "a" 1).heap
        (getAllPositionsRef ⟨[[("b", 2)]], 0⟩) ≠
      readRef (⟨[[("b", 2)]], 0⟩ : ManagerState).heap
        (getAllPositionsRef ⟨[[("b", 2)]], 0⟩) := by
  decide

/-- C6 amended: get_all_positions returns the live dict object itself, not
a copy — a set_position or remove_position performed after the snapshot was
taken is visible through the mapping the snapshot already returned; only
reset leaves the returned mapping unchanged, because it rebinds the
attribute to a fresh empty dict instead of mutating the old object. -/
theorem snapshot_returns_live_reference (st : ManagerState) (file_id : String)
    (p : Pos) (hr : st.posRef < st.heap.length) :
    readRef (setPositionRef st file_id p).heap (getAllPositionsRef st) =
      dictSet (readRef st.heap (getAllPositionsRef st)) file_id p ∧
    readRef (removePositionRef st file_id).heap (getAllPositionsRef st) =
      dictRemove (readRef st.heap (getAllPositionsRef st)) file_id ∧
    readRef (resetRef st).heap (getAllPositionsRef st) =
      readRef st.heap (getAllPositionsRef st) := by
  refine ⟨?_, ?_, ?_⟩
  · simpa [setPositionRef, getAllPositionsRef, writeRef] using
      readRef_writeRef_same st.heap st.posRef
        (dictSet (readRef st.heap st.posRef) file_id p) hr
  · by_cases hk : dictHasKey (readRef st.heap st.posRef) file_id
    · simpa [removePositionRef, hk, getAllPositionsRef, writeRef] using
        readRef_writeRef_same st.heap st.posRef
          (dictRemove (readRef st.heap st.posRef) file_id) hr
    · simp only [Bool.not_eq_true] at hk
      simp [removePositionRef, hk, getAllPositionsRef,
        dictRemove_of_not_hasKey _ _ hk]
  · simpa [resetRef, getAllPositionsRef] using
      readRef_append_of_lt st.heap [] st.posRef hr

theorem snapshot_returns_live_reference_witness :
    (0 : Nat) < ([[("b", 2)]] : Heap).length ∧
    readRef (resetRef ⟨[[("b", 2)]], 0⟩).heap
        (getAllPositionsRef ⟨[[("b", 2)]], 0⟩) =
      readRef ([[("b", 2)]] : Heap) 0 :=
  ⟨by decide,
    (snapshot_returns_live_reference ⟨[[("b", 2)]], 0⟩ "a" 1 (by decide)).2.2⟩

/-- The names defined at module top level by src/backend/app/utils.py. -/
def utilsDefinedNames : List String :=
  ["convert_beat_to_quarter", "preprocess_score", "find_score_file_by_id",
    "get_audio_devices", "run_score_following"]

/-- The names src/backend/app/main.py imports from .utils (lines 21-27). -/
def mainUtilsImports : List String :=
  ["convert_frame_to_beat", "find_midi_by_file_id", "get_audio_devices",
    "get_score_features", "preprocess_score"]

/-- Python from-import semantics: loading main.py succeeds only if every
name it imports from .utils is actually defined there; otherwise an
ImportError is raised and the module never loads. -/
def mainModuleLoads : Bool :=
  mainUtilsImports.all (fun n => utilsDefinedNames.contains n)

/-- The streaming path of main.py: its worker can only ever run — and hence
write the store — if the module loaded; if the import fails, no run
happens and nothing is published. -/
def streamingPathStore (file_id : String) (resolveErr acquireErr : Bool)
    (events : List ProducerEvent) (fuel : Nat) (d : Dict) : Option Dict :=
  if mainModuleLoads then
    some (run_score_following file_id resolveErr acquireErr events fuel d).1
  else none

/-- C10: the three helpers main.py imports from the utils module —
convert_frame_to_beat, find_midi_by_file_id and get_score_features — are
not defined there (nor anywhere in the source), so importing main.py fails
and the streaming path's worker never runs: no position is ever published
through this path, for any input. -/
theorem missing_utils_imports_block_streaming_path :
    mainModuleLoads = false ∧
    utilsDefinedNames.contains "convert_frame_to_beat" = false ∧
    utilsDefinedNames.contains "find_midi_by_file_id" = false ∧
    utilsDefinedNames.contains "get_score_features" = false ∧
    ∀ (file_id : String) (resolveErr acquireErr : Bool)
      (events : List ProducerEvent) (fuel : Nat) (d : Dict),
      streamingPathStore file_id resolveErr acquireErr events fuel d = none := by
  have hm : mainModuleLoads = false := by decide
  refine ⟨hm, by decide, by decide, by decide, ?_⟩
  intro file_id resolveErr acquireErr events fuel d
  simp [streamingPathStore, hm]

end ScoreFollowingApp
